import Mathlib

/-!
Verification of the x112v4l2 repository against its natural-language
specification.

The repository has two source files:
* `x112v4l2/ffmpeg.py` — builds ffmpeg command lines (`compile_command`),
  queries the ffmpeg version (`get_version`), and the two launcher entry
  points `screenshot` and `stream`;
* `x112v4l2/gtk/utils.py` — a breadth-first widget search
  (`find_child_by_id`).

Modelling conventions (shallow embedding):
* Python numbers flowing into `compile_command` are modelled as `ℚ`
  (the callers pass ints and floats; Python's float arithmetic in
  `screenshot` is modelled by exact rational arithmetic, and Python's
  `int(...)` coercion by truncation toward zero, `ratTrunc`).
  Every aspect-ratio comparison settled below compares ratios that are
  exactly representable, where IEEE double division agrees with exact
  rational division on equality of equal real quotients.
* `fps` is modelled as `Nat`: the source applies `int(fps)` and the only
  behaviourally relevant distinction is `fps == 0` versus positive.
* `subprocess` launching is not modelled: `screenshot` and `stream`
  return the compiled token list (the `cmd` value built in the source);
  the claims under verification only concern that token list.
* `get_version`'s interaction with the external process is modelled by
  its two observable inputs: the exit code of `ffmpeg -version` and the
  first output line.  A Python `IndexError` is modelled as
  `Except.error ()`.
-/

/-- Truncation toward zero of a rational, the semantics of Python `int(x)`
for a number `x`.  `Int.tdiv` truncates toward zero and the denominator
of a `ℚ` is positive, so this is the integer part of `q`. -/
def ratTrunc (q : ℚ) : Int :=
  q.num.tdiv q.den

theorem ratTrunc_of_nonneg {q : ℚ} (h : 0 ≤ q) : ratTrunc q = ⌊q⌋ := by
  have hnum : 0 ≤ q.num := Rat.num_nonneg.mpr h
  have hden : (0:Int) ≤ q.den := by positivity
  rw [ratTrunc, Rat.floor_def, Int.tdiv_eq_ediv] <;> omega

theorem ratTrunc_of_neg {q : ℚ} (h : q < 0) : ratTrunc q = -⌊-q⌋ := by
  have h2 : ratTrunc (-q) = ⌊-q⌋ := ratTrunc_of_nonneg (by linarith)
  rw [ratTrunc, Rat.neg_num, Rat.neg_den, Int.neg_tdiv] at h2
  rw [ratTrunc]
  omega

@[simp] theorem ratTrunc_intCast (n : Int) : ratTrunc ((n:ℚ)) = n := by
  rw [ratTrunc, Rat.num_intCast, Rat.den_intCast]
  simp [Int.tdiv_one n]

/-- The decimal digit character for `d ≤ 9` (used only with `d ≤ 9`). -/
def digitChar (d : Nat) : Char :=
  if d ≤ 9 then Char.ofNat (48 + d) else '*'

/-- Fuelled decimal rendering of a natural number, accumulator style.
With fuel at least `1` (and in practice `n + 1`) this renders `n` in
base 10, most significant digit first. -/
def natDigitsCore : Nat → Nat → List Char → List Char
  | 0, _, acc => acc
  | fuel + 1, n, acc =>
    if n < 10 then digitChar n :: acc
    else natDigitsCore fuel (n / 10) (digitChar (n % 10) :: acc)

/-- Decimal rendering of a natural number, the semantics of Python
`str(n)` for `n ≥ 0`. -/
def natStr (n : Nat) : String :=
  ⟨natDigitsCore (n + 1) n []⟩

/-- Decimal rendering of an integer, the semantics of Python `str(i)`. -/
def intStr (i : Int) : String :=
  if i < 0 then "-" ++ natStr i.natAbs else natStr i.natAbs

/-- The `'{w}x{h}'.format(w=source_width, h=source_height)` token of
`compile_command` (`ffmpeg.py`). -/
def sizeStr (w h : Int) : String :=
  intStr w ++ "x" ++ intStr h

/-- The `'{screen}+{x},{y}'.format(...)` input locator token of
`compile_command` (`ffmpeg.py`). -/
def locator (screen : String) (x y : Int) : String :=
  screen ++ "+" ++ intStr x ++ "," ++ intStr y

/-- The stretch-to-fit filter string of `compile_command`
(`'scale=width={w}:height={h}'`). -/
def stretchFilter (w h : Int) : String :=
  "scale=width=" ++ intStr w ++ ":height=" ++ intStr h

/-- The aspect-preserving downscale filter string of `compile_command`
(`'scale=width={w}:height={h}:force_original_aspect_ratio=decrease'`). -/
def scaleFilter (w h : Int) : String :=
  "scale=width=" ++ intStr w ++ ":height=" ++ intStr h ++
    ":force_original_aspect_ratio=decrease"

/-- The centering padding filter string of `compile_command`
(`'pad=width={w}:height={h}:x=(ow-iw)/2:y=(oh-ih)/2'`). -/
def padFilter (w h : Int) : String :=
  "pad=width=" ++ intStr w ++ ":height=" ++ intStr h ++
    ":x=(ow-iw)/2:y=(oh-ih)/2"

/-- Python `', '.join(filters)` restricted to the nonempty case used by
the source (`compile_command` only joins when `filter_args` is truthy). -/
def joinFilters : List String → String
  | [] => ""
  | [f] => f
  | f :: g :: rest => f ++ ", " ++ joinFilters (g :: rest)

/-- The defaulting step of `compile_command`:
`if not output_width: output_width = source_width` — Python treats both
an omitted value (`None`) and `0` (or `0.0`) as falsy. -/
def effDim (o : Option ℚ) (s : ℚ) : ℚ :=
  match o with
  | none => s
  | some v => if v = 0 then s else v

/-- The `input_args` list of `compile_command` (`ffmpeg.py`), after the
integer coercions of the validation block. -/
def inputArgs (screen : String) (sx sy sw sh : Int) (fps : Nat)
    (loglevel : String) : List String :=
  ["ffmpeg",
   "-loglevel", loglevel,
   "-f", "x11grab",
   "-framerate", if fps = 0 then "120" else natStr fps,
   "-s", sizeStr sw sh,
   "-i", locator screen sx sy]

/-- The filter strings accumulated by `compile_command` into
`filter_args` before the `-vf` wrapping, in source order.  `sw`, `sh`,
`ow`, `oh` are the already-coerced integer source/output dimensions. -/
def filterStrings (sw sh ow oh : Int) (scale maintain_aspect : Bool) :
    List String :=
  if ow ≠ sw ∨ oh ≠ sh then
    if scale ∧ ¬ maintain_aspect then [stretchFilter ow oh]
    else
      (if scale ∧ ow ≠ sw ∧ oh ≠ sh then [scaleFilter ow oh] else []) ++
      (if ¬ scale ∨ (sw : ℚ) / (sh : ℚ) ≠ (ow : ℚ) / (oh : ℚ) then
        [padFilter ow oh]
      else [])
  else []

/-- The `-vf` wrapping of `compile_command`:
`if filter_args: filter_args = ['-vf', ', '.join(filter_args)]`. -/
def filterArgs (sw sh ow oh : Int) (scale maintain_aspect : Bool) :
    List String :=
  let fs := filterStrings sw sh ow oh scale maintain_aspect
  if fs.isEmpty then [] else ["-vf", joinFilters fs]

/-- The `output_args` list of `compile_command` (`ffmpeg.py`):
single-image clause for `fps = 0`, raw-video/device clause otherwise. -/
def outputArgs (fps : Nat) (output_filename : String) : List String :=
  if fps = 0 then
    ["-vframes", "1", "-y", output_filename]
  else
    ["-vcodec", "rawvideo",
     "-pix_fmt", "yuv420p",
     "-threads", "0",
     "-f", "v4l2",
     output_filename]

/-- `compile_command` of `ffmpeg.py`: defaulting of the output
dimensions, integer coercion of every numeric field, then
`input_args + filter_args + output_args`. -/
def compile_command (source_screen : String)
    (source_x source_y source_width source_height : ℚ)
    (output_filename : String)
    (output_width output_height : Option ℚ)
    (fps : Nat) (scale maintain_aspect : Bool) (loglevel : String) :
    List String :=
  inputArgs source_screen (ratTrunc source_x) (ratTrunc source_y)
      (ratTrunc source_width) (ratTrunc source_height) fps loglevel
    ++ filterArgs (ratTrunc source_width) (ratTrunc source_height)
      (ratTrunc (effDim output_width source_width))
      (ratTrunc (effDim output_height source_height))
      scale maintain_aspect
    ++ outputArgs fps output_filename

example : natStr 1280 = "1280" := by decide
example : intStr (-17) = "-17" := by decide
example : ratTrunc (7/2 : ℚ) = 3 := by
  rw [ratTrunc_of_nonneg (by norm_num)]; norm_num
example : ratTrunc (-7/2 : ℚ) = -3 := by
  rw [ratTrunc_of_neg (by norm_num)]; norm_num
example :
    compile_command ":0.0" 0 0 100 100 "out.png" none none 0 true true
      "error" =
    ["ffmpeg", "-loglevel", "error", "-f", "x11grab", "-framerate", "120",
     "-s", "100x100", "-i", ":0.0+0,0", "-vframes", "1", "-y", "out.png"] := by
  decide

/-! ## Character-level facts about the rendered tokens

`compile_command` interleaves fixed literal tokens with caller-supplied
strings and rendered numbers.  To reason about which tokens can occur in
the compiled command we record, for every rendered slot, a character that
it always (or never) contains. -/

theorem digitChar_isDigit {d : Nat} (h : d < 10) : (digitChar d).isDigit := by
  interval_cases d <;> decide

theorem natDigitsCore_digits :
    ∀ (fuel n : Nat) (acc : List Char), (∀ c ∈ acc, c.isDigit) →
      ∀ c ∈ natDigitsCore fuel n acc, c.isDigit := by
  intro fuel
  induction fuel with
  | zero => intro n acc hacc c hc; exact hacc c hc
  | succ fuel ih =>
    intro n acc hacc c hc
    rw [natDigitsCore] at hc
    split at hc
    · rcases List.mem_cons.mp hc with h | h
      · subst h; exact digitChar_isDigit (by omega)
      · exact hacc c h
    · refine ih (n / 10) _ ?_ c hc
      intro c' hc'
      rcases List.mem_cons.mp hc' with h | h
      · subst h; exact digitChar_isDigit (Nat.mod_lt _ (by omega))
      · exact hacc c' h

theorem natStr_digits (n : Nat) : ∀ c ∈ (natStr n).data, c.isDigit :=
  natDigitsCore_digits (n + 1) n [] (by simp)

/-- Two strings differ when one contains a character the other lacks. -/
theorem String.ne_of_mem_char {s t : String} {c : Char}
    (hs : c ∈ s.data) (ht : c ∉ t.data) : s ≠ t := by
  intro h; subst h; exact ht hs

theorem natStr_ne {n : Nat} {t : String}
    (h : ∃ c ∈ t.data, ¬ c.isDigit) : natStr n ≠ t := by
  rcases h with ⟨c, hc, hnd⟩
  intro he
  exact hnd (natStr_digits n c (he ▸ hc))

theorem locator_mem_plus (screen : String) (x y : Int) :
    '+' ∈ (locator screen x y).data := by
  rw [locator]
  simp only [String.data_append]
  simp

theorem locator_ne {screen : String} {x y : Int} {t : String}
    (h : '+' ∉ t.data) : locator screen x y ≠ t :=
  String.ne_of_mem_char (locator_mem_plus screen x y) h

theorem sizeStr_mem_x (w h : Int) : 'x' ∈ (sizeStr w h).data := by
  rw [sizeStr]
  simp only [String.data_append]
  simp

theorem sizeStr_ne {w h : Int} {t : String}
    (hx : 'x' ∉ t.data) : sizeStr w h ≠ t :=
  String.ne_of_mem_char (sizeStr_mem_x w h) hx

theorem stretchFilter_mem_eq (w h : Int) : '=' ∈ (stretchFilter w h).data := by
  rw [stretchFilter]
  simp only [String.data_append]
  simp

theorem scaleFilter_mem_eq (w h : Int) : '=' ∈ (scaleFilter w h).data := by
  rw [scaleFilter]
  simp only [String.data_append]
  simp

theorem padFilter_mem_eq (w h : Int) : '=' ∈ (padFilter w h).data := by
  rw [padFilter]
  simp only [String.data_append]
  simp

theorem filterStrings_mem_eq {sw sh ow oh : Int} {scale ma : Bool} :
    ∀ f ∈ filterStrings sw sh ow oh scale ma, '=' ∈ f.data := by
  intro f hf
  rw [filterStrings] at hf
  split at hf
  · split at hf
    · rcases List.mem_singleton.mp hf with rfl
      exact stretchFilter_mem_eq ow oh
    · rcases List.mem_append.mp hf with h | h
      · split at h
        · rcases List.mem_singleton.mp h with rfl
          exact scaleFilter_mem_eq ow oh
        · simp at h
      · split at h
        · rcases List.mem_singleton.mp h with rfl
          exact padFilter_mem_eq ow oh
        · simp at h
  · simp at hf

theorem joinFilters_mem_eq :
    ∀ fs : List String, fs ≠ [] → (∀ f ∈ fs, '=' ∈ f.data) →
      '=' ∈ (joinFilters fs).data
  | [], h, _ => absurd rfl h
  | [f], _, hall => by
      rw [joinFilters]
      exact hall f (by simp)
  | f :: g :: rest, _, hall => by
      rw [joinFilters]
      simp only [String.data_append, List.mem_append]
      exact Or.inl (Or.inl (hall f (by simp)))

/-- Every token of `input_args` is one of the fixed literals, the
caller's log level, a pure-digit frame-rate token (or the literal
`"120"`), a size token containing `'x'`, or a locator containing `'+'`. -/
theorem mem_inputArgs {screen : String} {sx sy sw sh : Int} {fps : Nat}
    {ll : String} {t : String} (ht : t ∈ inputArgs screen sx sy sw sh fps ll) :
    t = "ffmpeg" ∨ t = "-loglevel" ∨ t = ll ∨ t = "-f" ∨ t = "x11grab" ∨
      t = "-framerate" ∨ t = "120" ∨ (∀ c ∈ t.data, c.isDigit) ∨
      t = "-s" ∨ 'x' ∈ t.data ∨ t = "-i" ∨ '+' ∈ t.data := by
  rw [inputArgs] at ht
  simp only [List.not_mem_nil, or_false, List.mem_cons] at ht
  rcases ht with h | h | h | h | h | h | h | h | h | h | h
  · tauto
  · tauto
  · tauto
  · tauto
  · tauto
  · tauto
  · by_cases hf : fps = 0
    · rw [if_pos hf] at h
      tauto
    · rw [if_neg hf] at h
      have hd : ∀ c ∈ t.data, c.isDigit := by
        rw [h]
        exact natStr_digits fps
      tauto
  · tauto
  · have hx : 'x' ∈ t.data := by
      rw [h]
      exact sizeStr_mem_x sw sh
    tauto
  · tauto
  · have hp : '+' ∈ t.data := by
      rw [h]
      exact locator_mem_plus screen sx sy
    tauto

/-- Every token of the (wrapped) filter clause is either `"-vf"` itself
or a joined filter string, which always contains `'='`. -/
theorem mem_filterArgs {sw sh ow oh : Int} {scale ma : Bool} {t : String}
    (ht : t ∈ filterArgs sw sh ow oh scale ma) :
    t = "-vf" ∨ '=' ∈ t.data := by
  rw [filterArgs] at ht
  by_cases he : (filterStrings sw sh ow oh scale ma).isEmpty
  · simp [he] at ht
  · rw [if_neg he] at ht
    simp only [List.not_mem_nil, or_false, List.mem_cons] at ht
    rcases ht with h | h
    · exact Or.inl h
    · subst h
      refine Or.inr (joinFilters_mem_eq _ ?_ filterStrings_mem_eq)
      intro hnil
      rw [hnil] at he
      exact he rfl

/-- Every token of `output_args` is the output filename or one of the
fixed literals of the two output clauses. -/
theorem mem_outputArgs {fps : Nat} {fn : String} {t : String}
    (ht : t ∈ outputArgs fps fn) :
    t = fn ∨ t ∈ ["-vframes", "1", "-y", "-vcodec", "rawvideo", "-pix_fmt",
      "yuv420p", "-threads", "0", "-f", "v4l2"] := by
  rw [outputArgs] at ht
  by_cases hf : fps = 0
  · rw [if_pos hf] at ht
    simp only [List.not_mem_nil, or_false, List.mem_cons] at ht
    rcases ht with h | h | h | h
    · right; simp [h]
    · right; simp [h]
    · right; simp [h]
    · exact Or.inl h
  · rw [if_neg hf] at ht
    simp only [List.not_mem_nil, or_false, List.mem_cons] at ht
    rcases ht with h | h | h | h | h | h | h | h | h
    all_goals first
      | (left; exact h)
      | (right; simp [h])

/-- Case analysis for membership in a compiled command: every token is a
fixed input literal, the log level, a digit string, a string containing
`'x'`, `'+'` or `'='`, the token `"-vf"`, the output filename, or a
token of the output clause selected by `fps`. -/
theorem mem_compile_command {screen fn ll : String} {sx sy sw sh : ℚ}
    {owo oho : Option ℚ} {fps : Nat} {scale ma : Bool} {t : String}
    (ht : t ∈ compile_command screen sx sy sw sh fn owo oho fps scale ma ll) :
    t = "ffmpeg" ∨ t = "-loglevel" ∨ t = ll ∨ t = "-f" ∨ t = "x11grab" ∨
      t = "-framerate" ∨ t = "120" ∨ (∀ c ∈ t.data, c.isDigit) ∨
      t = "-s" ∨ 'x' ∈ t.data ∨ t = "-i" ∨ '+' ∈ t.data ∨
      t = "-vf" ∨ '=' ∈ t.data ∨ t ∈ outputArgs fps fn := by
  rw [compile_command] at ht
  rcases List.mem_append.mp ht with h | h
  · rcases List.mem_append.mp h with h' | h'
    · have := mem_inputArgs h'
      tauto
    · have := mem_filterArgs h'
      tauto
  · tauto

/-- A token that differs from every fixed literal, from the free-form
string arguments, and from every possible rendered-number shape cannot
occur in a compiled command. -/
theorem not_mem_compile_command {screen fn ll : String} {sx sy sw sh : ℚ}
    {owo oho : Option ℚ} {fps : Nat} {scale ma : Bool} {t : String}
    (hfix : t ∉ (["ffmpeg", "-loglevel", "-f", "x11grab", "-framerate",
      "120", "-s", "-i", "-vf"] : List String))
    (hdig : ¬ ∀ c ∈ t.data, c.isDigit)
    (hx : 'x' ∉ t.data) (hplus : '+' ∉ t.data) (heqc : '=' ∉ t.data)
    (hll : t ≠ ll)
    (hout : t ∉ outputArgs fps fn) :
    t ∉ compile_command screen sx sy sw sh fn owo oho fps scale ma ll := by
  intro ht
  rcases mem_compile_command ht with
    h | h | h | h | h | h | h | h | h | h | h | h | h | h | h
  · exact hfix (by simp [h])
  · exact hfix (by simp [h])
  · exact hll h
  · exact hfix (by simp [h])
  · exact hfix (by simp [h])
  · exact hfix (by simp [h])
  · exact hfix (by simp [h])
  · exact hdig h
  · exact hfix (by simp [h])
  · exact hx h
  · exact hfix (by simp [h])
  · exact hplus h
  · exact hfix (by simp [h])
  · exact heqc h
  · exact hout h

/-- C1, counterexample.  The claim asserts that for `fps = 0` the
compiled command "never contains the raw-video/device tokens
('-vcodec', 'rawvideo', '-f', 'v4l2')", but the token `"-f"` always
occurs in the input clause `-f x11grab`, here at a perfectly ordinary
still-capture request. -/
theorem c1_counterexample :
    "-f" ∈ compile_command ":0.0" 0 0 100 100 "out.png" none none 0 true
      true "error" := by
  decide

/-- C1, amended: the output clause of `compile_command` is selected
solely by `fps`.  For `fps = 0` the command ends with the single-image
clause and contains none of `'-vcodec'`, `'rawvideo'`, `'v4l2'`; for
`fps > 0` it ends with the raw-video/device clause and does not contain
`'-vframes'`.  Amendment forced by the counterexample: `'-f'` cannot be
excluded (it always occurs in the input clause), and the free-form
`loglevel` / `output_filename` strings must not themselves be one of the
excluded literal tokens. -/
theorem c1_output_clause_selection (screen fn ll : String)
    (sx sy sw sh : ℚ) (owo oho : Option ℚ) (fps : Nat) (scale ma : Bool)
    (hll : ll ∉ (["-vcodec", "rawvideo", "v4l2", "-vframes"] : List String))
    (hfn : fn ∉ (["-vcodec", "rawvideo", "v4l2", "-vframes"] : List String)) :
    (fps = 0 →
      ["-vframes", "1", "-y", fn] <:+
          compile_command screen sx sy sw sh fn owo oho fps scale ma ll ∧
        "-vcodec" ∉ compile_command screen sx sy sw sh fn owo oho fps scale ma ll ∧
        "rawvideo" ∉ compile_command screen sx sy sw sh fn owo oho fps scale ma ll ∧
        "v4l2" ∉ compile_command screen sx sy sw sh fn owo oho fps scale ma ll) ∧
    (fps ≠ 0 →
      ["-vcodec", "rawvideo", "-pix_fmt", "yuv420p", "-threads", "0",
          "-f", "v4l2", fn] <:+
          compile_command screen sx sy sw sh fn owo oho fps scale ma ll ∧
        "-vframes" ∉ compile_command screen sx sy sw sh fn owo oho fps scale ma ll) := by
  simp only [not_or, List.not_mem_nil, or_false, List.mem_cons] at hll hfn
  constructor
  · intro hf
    refine ⟨?_, ?_, ?_, ?_⟩
    · rw [compile_command, outputArgs, if_pos hf]
      exact List.suffix_append _ _
    · refine not_mem_compile_command (by decide) (by decide) (by decide)
        (by decide) (by decide) (fun h => hll.1 h.symm) ?_
      rw [outputArgs, if_pos hf]
      simp only [not_or, List.not_mem_nil, or_false, List.mem_cons]
      exact ⟨by decide, by decide, by decide, fun h => hfn.1 h.symm⟩
    · refine not_mem_compile_command (by decide) (by decide) (by decide)
        (by decide) (by decide) (fun h => hll.2.1 h.symm) ?_
      rw [outputArgs, if_pos hf]
      simp only [not_or, List.not_mem_nil, or_false, List.mem_cons]
      exact ⟨by decide, by decide, by decide, fun h => hfn.2.1 h.symm⟩
    · refine not_mem_compile_command (by decide) (by decide) (by decide)
        (by decide) (by decide) (fun h => hll.2.2.1 h.symm) ?_
      rw [outputArgs, if_pos hf]
      simp only [not_or, List.not_mem_nil, or_false, List.mem_cons]
      exact ⟨by decide, by decide, by decide, fun h => hfn.2.2.1 h.symm⟩
  · intro hf
    refine ⟨?_, ?_⟩
    · rw [compile_command, outputArgs, if_neg hf]
      exact List.suffix_append _ _
    · refine not_mem_compile_command (by decide) (by decide) (by decide)
        (by decide) (by decide) (fun h => hll.2.2.2 h.symm) ?_
      rw [outputArgs, if_neg hf]
      simp only [not_or, List.not_mem_nil, or_false, List.mem_cons]
      refine ⟨by decide, by decide, by decide, by decide, by decide,
        by decide, by decide, by decide, fun h => hfn.2.2.2 h.symm⟩

/-- C1, witness: the amended theorem applied at a concrete still-capture
request (`fps = 0`) with ordinary arguments. -/
theorem c1_output_clause_selection_witness :
    ["-vframes", "1", "-y", "out.png"] <:+
        compile_command ":0.0" 0 0 100 100 "out.png" none none 0 true true
          "error" ∧
      "-vcodec" ∉ compile_command ":0.0" 0 0 100 100 "out.png" none none 0
        true true "error" ∧
      "rawvideo" ∉ compile_command ":0.0" 0 0 100 100 "out.png" none none 0
        true true "error" ∧
      "v4l2" ∉ compile_command ":0.0" 0 0 100 100 "out.png" none none 0
        true true "error" :=
  (c1_output_clause_selection ":0.0" "out.png" "error" 0 0 100 100 none
    none 0 true true (by decide) (by decide)).1 rfl

/-- C3, counterexample.  The claim asserts that whenever the (defaulted)
output geometry equals the source geometry the compiled command contains
no `'-vf'` token at all, for every capture request; but a request whose
log-verbosity string is itself `"-vf"` makes the token appear in the
`-loglevel` slot even though no filter argument is emitted. -/
theorem c3_counterexample :
    "-vf" ∈ compile_command ":0.0" 0 0 100 100 "out.png" none none 0 true
      true "-vf" := by
  decide

/-- C3, amended: when the (defaulted, integer-coerced) output dimensions
equal the source dimensions, the compiled command contains no `'-vf'`
token, for all values of `scale`, `maintain_aspect` and `fps` —
provided the free-form `loglevel` and `output_filename` strings are not
themselves the literal `"-vf"` (amendment forced by the
counterexample). -/
theorem c3_no_filter_argument (screen fn ll : String) (sx sy sw sh : ℚ)
    (owo oho : Option ℚ) (fps : Nat) (scale ma : Bool)
    (hw : ratTrunc (effDim owo sw) = ratTrunc sw)
    (hh : ratTrunc (effDim oho sh) = ratTrunc sh)
    (hll : ll ≠ "-vf") (hfn : fn ≠ "-vf") :
    "-vf" ∉ compile_command screen sx sy sw sh fn owo oho fps scale ma ll := by
  intro ht
  rw [compile_command, hw, hh] at ht
  have hempty : filterStrings (ratTrunc sw) (ratTrunc sh) (ratTrunc sw)
      (ratTrunc sh) scale ma = [] := by
    rw [filterStrings, if_neg]
    simp
  rw [filterArgs] at ht
  simp only [hempty, List.isEmpty_nil, if_true, List.append_nil] at ht
  rcases List.mem_append.mp ht with h | h
  · rcases mem_inputArgs h with
      h' | h' | h' | h' | h' | h' | h' | h' | h' | h' | h' | h'
    · exact absurd h' (by decide)
    · exact absurd h' (by decide)
    · exact hll h'.symm
    · exact absurd h' (by decide)
    · exact absurd h' (by decide)
    · exact absurd h' (by decide)
    · exact absurd h' (by decide)
    · exact absurd h' (by decide)
    · exact absurd h' (by decide)
    · exact absurd h' (by decide)
    · exact absurd h' (by decide)
    · exact absurd h' (by decide)
  · rcases mem_outputArgs h with h' | h'
    · exact hfn h'.symm
    · exact absurd h' (by decide)

/-- C3, witness: the amended theorem at a concrete request whose output
geometry is left to default to the source geometry. -/
theorem c3_no_filter_argument_witness :
    "-vf" ∉ compile_command ":0.0" 0 0 1920 1080 "shot.png" none none 0
      true true "error" :=
  c3_no_filter_argument ":0.0" "shot.png" "error" 0 0 1920 1080 none none
    0 true true rfl rfl (by decide) (by decide)

theorem effDim_some_of_ne {v s : ℚ} (h : v ≠ 0) : effDim (some v) s = v := by
  simp [effDim, h]

theorem ratTrunc_eq_of_eq_intCast {q : ℚ} {n : Int} (h : q = ((n:ℚ))) :
    ratTrunc q = n := by
  rw [h, ratTrunc_intCast]

/-- C4: stretch mode.  With `scale = true`, `maintain_aspect = false`
and (nonzero) output dimensions differing from the source dimensions,
the compiled command carries exactly one filter — the stretch-to-fit
filter with the requested output width/height — as the single `-vf`
argument. -/
theorem c4_stretch_single_filter (screen fn ll : String) (sx sy : ℚ)
    (sw sh ow oh : Int) (fps : Nat)
    (how : ow ≠ 0) (hoh : oh ≠ 0) (hdiff : ow ≠ sw ∨ oh ≠ sh) :
    compile_command screen sx sy ((sw:ℚ)) ((sh:ℚ)) fn (some ((ow:ℚ)))
        (some ((oh:ℚ))) fps true false ll =
      inputArgs screen (ratTrunc sx) (ratTrunc sy) sw sh fps ll ++
        ["-vf", stretchFilter ow oh] ++ outputArgs fps fn := by
  have hcw : ((ow:ℚ)) ≠ 0 := Int.cast_ne_zero.mpr how
  have hch : ((oh:ℚ)) ≠ 0 := Int.cast_ne_zero.mpr hoh
  have hfs : filterStrings sw sh ow oh true false = [stretchFilter ow oh] := by
    rw [filterStrings, if_pos hdiff, if_pos (by simp)]
  have hfa : filterArgs sw sh ow oh true false =
      ["-vf", stretchFilter ow oh] := by
    simp [filterArgs, hfs, joinFilters]
  rw [compile_command, effDim_some_of_ne hcw, effDim_some_of_ne hch]
  simp only [ratTrunc_intCast]
  rw [hfa]

/-- C4, witness: stretch mode at a concrete request. -/
theorem c4_stretch_single_filter_witness :
    compile_command ":0.0" 0 0 (((1920:Int):ℚ)) (((1080:Int):ℚ)) "out.png"
        (some (((640:Int):ℚ))) (some (((640:Int):ℚ))) 0 true false "error" =
      inputArgs ":0.0" (ratTrunc 0) (ratTrunc 0) 1920 1080 0 "error" ++
        ["-vf", stretchFilter 640 640] ++ outputArgs 0 "out.png" :=
  c4_stretch_single_filter ":0.0" "out.png" "error" 0 0 1920 1080 640 640 0
    (by decide) (by decide) (Or.inl (by decide))

/-- C5: non-scaling mode.  With `scale = false` and (nonzero) output
dimensions differing from the source dimensions, and source aspect ratio
differing from output aspect ratio, the compiled command's filter chain
is the centering padding filter sized to the output dimensions, passed
as the single `-vf` argument. -/
theorem c5_pad_filter (screen fn ll : String) (sx sy : ℚ)
    (sw sh ow oh : Int) (fps : Nat) (ma : Bool)
    (how : ow ≠ 0) (hoh : oh ≠ 0) (hdiff : ow ≠ sw ∨ oh ≠ sh)
    (haspect : ((sw:ℚ)) / ((sh:ℚ)) ≠ ((ow:ℚ)) / ((oh:ℚ))) :
    compile_command screen sx sy ((sw:ℚ)) ((sh:ℚ)) fn (some ((ow:ℚ)))
        (some ((oh:ℚ))) fps false ma ll =
      inputArgs screen (ratTrunc sx) (ratTrunc sy) sw sh fps ll ++
        ["-vf", padFilter ow oh] ++ outputArgs fps fn := by
  have hcw : ((ow:ℚ)) ≠ 0 := Int.cast_ne_zero.mpr how
  have hch : ((oh:ℚ)) ≠ 0 := Int.cast_ne_zero.mpr hoh
  have hfs : filterStrings sw sh ow oh false ma = [padFilter ow oh] := by
    rw [filterStrings, if_pos hdiff]
    simp [haspect]
  have hfa : filterArgs sw sh ow oh false ma = ["-vf", padFilter ow oh] := by
    simp [filterArgs, hfs, joinFilters]
  rw [compile_command, effDim_some_of_ne hcw, effDim_some_of_ne hch]
  simp only [ratTrunc_intCast]
  rw [hfa]

/-- C5, witness: padding mode at a concrete request (source 1920×1080,
output 1000×1000, aspect ratios 16/9 ≠ 1). -/
theorem c5_pad_filter_witness :
    compile_command ":0.0" 0 0 (((1920:Int):ℚ)) (((1080:Int):ℚ)) "out.png"
        (some (((1000:Int):ℚ))) (some (((1000:Int):ℚ))) 0 false true "error" =
      inputArgs ":0.0" (ratTrunc 0) (ratTrunc 0) 1920 1080 0 "error" ++
        ["-vf", padFilter 1000 1000] ++ outputArgs 0 "out.png" :=
  c5_pad_filter ":0.0" "out.png" "error" 0 0 1920 1080 1000 1000 0 true
    (by decide) (by decide) (Or.inl (by decide)) (by norm_num)

/-- C6: the specific request (source 1920×1080 at the origin, output
1280×720, `scale = true`, `maintain_aspect = true`) compiles to a filter
chain of exactly one downscale filter and no padding filter, because the
exact aspect-ratio equality 1920/1080 = 1280/720 holds. -/
theorem c6_downscale_no_pad (screen fn ll : String) (fps : Nat) :
    compile_command screen 0 0 1920 1080 fn (some 1280) (some 720) fps
        true true ll =
      inputArgs screen 0 0 1920 1080 fps ll ++
        ["-vf",
          "scale=width=1280:height=720:force_original_aspect_ratio=decrease"] ++
        outputArgs fps fn := by
  have hne1 : ((1280:ℚ)) ≠ 0 := by norm_num
  have hne2 : ((720:ℚ)) ≠ 0 := by norm_num
  have e0 : ratTrunc ((0:ℚ)) = 0 := ratTrunc_eq_of_eq_intCast (by norm_num)
  have e1 : ratTrunc ((1920:ℚ)) = 1920 := ratTrunc_eq_of_eq_intCast (by norm_num)
  have e2 : ratTrunc ((1080:ℚ)) = 1080 := ratTrunc_eq_of_eq_intCast (by norm_num)
  have e3 : ratTrunc ((1280:ℚ)) = 1280 := ratTrunc_eq_of_eq_intCast (by norm_num)
  have e4 : ratTrunc ((720:ℚ)) = 720 := ratTrunc_eq_of_eq_intCast (by norm_num)
  have hfs : filterStrings 1920 1080 1280 720 true true =
      [scaleFilter 1280 720] := by
    rw [filterStrings, if_pos (Or.inl (by decide)), if_neg (by simp),
      if_pos ⟨by simp, by decide, by decide⟩, if_neg]
    · simp
    · push_neg
      refine ⟨by simp, ?_⟩
      push_cast
      norm_num
  have hsf : scaleFilter 1280 720 =
      "scale=width=1280:height=720:force_original_aspect_ratio=decrease" := by
    decide
  have hfa : filterArgs 1920 1080 1280 720 true true =
      ["-vf",
        "scale=width=1280:height=720:force_original_aspect_ratio=decrease"] := by
    simp [filterArgs, hfs, joinFilters, hsf]
  rw [compile_command, effDim_some_of_ne hne1, effDim_some_of_ne hne2,
    e0, e1, e2, e3, e4, hfa]

/-- C10: `compile_command` treats an output dimension of `0` exactly
like an omitted one — the compiled command is the one obtained with the
dimension defaulted to the source dimension — so for a positive integer
source dimension the defaulted value that reaches token rendering is the
(positive) source dimension, never `0`; and any nonzero value, including
a negative one, is passed through unchecked into the coercion step. -/
theorem c10_zero_output_dim_defaults (screen fn ll : String)
    (sx sy sw sh : ℚ) (owo oho : Option ℚ) (fps : Nat) (scale ma : Bool) :
    (compile_command screen sx sy sw sh fn (some 0) oho fps scale ma ll =
        compile_command screen sx sy sw sh fn none oho fps scale ma ll) ∧
    (compile_command screen sx sy sw sh fn (some sw) oho fps scale ma ll =
        compile_command screen sx sy sw sh fn none oho fps scale ma ll) ∧
    (compile_command screen sx sy sw sh fn owo (some 0) fps scale ma ll =
        compile_command screen sx sy sw sh fn owo none fps scale ma ll) ∧
    (compile_command screen sx sy sw sh fn owo (some sh) fps scale ma ll =
        compile_command screen sx sy sw sh fn owo none fps scale ma ll) ∧
    (∀ n : Int, sw = ((n:ℚ)) → 0 < n →
      ratTrunc (effDim (some 0) sw) = n ∧ 0 < ratTrunc (effDim (some 0) sw)) ∧
    (∀ v : ℚ, v ≠ 0 → effDim (some v) sw = v) := by
  refine ⟨?_, ?_, ?_, ?_, ?_, ?_⟩
  · simp [compile_command, effDim]
  · simp [compile_command, effDim]
  · simp [compile_command, effDim]
  · simp [compile_command, effDim]
  · intro n hsw hn
    have h : effDim (some 0) sw = sw := by simp [effDim]
    rw [h, hsw, ratTrunc_intCast]
    exact ⟨rfl, hn⟩
  · intro v hv
    exact effDim_some_of_ne hv

/-- C10, witness: source width 100, height 100; the defaulted effective
width for a `0` request is 100, and a negative explicit value `-3` is
passed through unchecked. -/
theorem c10_zero_output_dim_defaults_witness :
    (compile_command ":0.0" 0 0 100 100 "o" (some 0) none 0 true true
        "error" =
      compile_command ":0.0" 0 0 100 100 "o" none none 0 true true
        "error") ∧
    ratTrunc (effDim (some 0) 100) = 100 ∧
    0 < ratTrunc (effDim (some 0) ((100:ℚ))) ∧
    effDim (some (-3)) 100 = -3 := by
  have T := c10_zero_output_dim_defaults ":0.0" "o" "error" 0 0 100 100
    none none 0 true true
  have h5 := T.2.2.2.2.1 100 (by norm_num) (by norm_num)
  exact ⟨T.1, h5.1, h5.2, T.2.2.2.2.2 (-3) (by norm_num)⟩

/-- The geometry mapping (`x`, `y`, `width`, `height`) that the
launchers receive (`geometry['x']` etc. in `ffmpeg.py`). -/
structure Geometry where
  x : Int
  y : Int
  width : Int
  height : Int

/-- `math.ceil(d / 2) * 2` from `stream` in `ffmpeg.py`: the output
dimension rounding applied to both width and height. -/
def evenRoundUp (d : Int) : Int :=
  ⌈((d:ℚ)) / 2⌉ * 2

/-- `stream` of `ffmpeg.py` (the compiled command; process launch is not
modelled): output dimensions rounded up to even, `maintain_aspect=True`,
requested `fps`, default `scale=True` and `loglevel='error'`. -/
def stream (screen_id : String) (g : Geometry) (fps : Nat)
    (filename : String) : List String :=
  compile_command screen_id ((g.x:ℚ)) ((g.y:ℚ)) ((g.width:ℚ)) ((g.height:ℚ))
    filename (some ((evenRoundUp g.width : Int) : ℚ))
    (some ((evenRoundUp g.height : Int) : ℚ)) fps true true "error"

/-- `evenRoundUp` is the smallest even integer at least its argument. -/
theorem evenRoundUp_spec (d : Int) :
    2 ∣ evenRoundUp d ∧ d ≤ evenRoundUp d ∧
      ∀ m : Int, 2 ∣ m → d ≤ m → evenRoundUp d ≤ m := by
  refine ⟨dvd_mul_left 2 _, ?_, ?_⟩
  · have h := Int.le_ceil (((d:ℚ)) / 2)
    have h2 : ((d:ℚ)) ≤ ((⌈((d:ℚ)) / 2⌉ : ℚ)) * 2 := by linarith
    rw [evenRoundUp]
    exact_mod_cast h2
  · intro m hm hdm
    obtain ⟨k, hk⟩ := hm
    have hdk : ((d:ℚ)) / 2 ≤ ((k:ℚ)) := by
      have : ((d:ℚ)) ≤ ((m:ℚ)) := by exact_mod_cast hdm
      rw [hk] at this
      push_cast at this
      linarith
    have hceil : ⌈((d:ℚ)) / 2⌉ ≤ k := Int.ceil_le.mpr hdk
    rw [evenRoundUp]
    omega

/-- C8: for a geometry with positive width and height, `stream` compiles
its command with output width/height equal to the smallest even integers
at least the source width/height (computed as `ceil(d/2)*2`), passing
`maintain_aspect = true` and the requested `fps`. -/
theorem c8_stream_even_output_dims (screen fn : String) (g : Geometry)
    (fps : Nat) (hw : 0 < g.width) (hh : 0 < g.height) :
    stream screen g fps fn =
      compile_command screen ((g.x:ℚ)) ((g.y:ℚ)) ((g.width:ℚ))
        ((g.height:ℚ)) fn (some ((evenRoundUp g.width : Int) : ℚ))
        (some ((evenRoundUp g.height : Int) : ℚ)) fps true true "error" ∧
    (2 ∣ evenRoundUp g.width ∧ g.width ≤ evenRoundUp g.width ∧
      ∀ m : Int, 2 ∣ m → g.width ≤ m → evenRoundUp g.width ≤ m) ∧
    (2 ∣ evenRoundUp g.height ∧ g.height ≤ evenRoundUp g.height ∧
      ∀ m : Int, 2 ∣ m → g.height ≤ m → evenRoundUp g.height ≤ m) :=
  ⟨rfl, evenRoundUp_spec g.width, evenRoundUp_spec g.height⟩

/-- C8, witness: a 101×50 geometry streams with output width rounded up
to 102 (the smallest even integer at least 101). -/
theorem c8_stream_even_output_dims_witness :
    stream ":0.0" ⟨0, 0, 101, 50⟩ 30 "/dev/video0" =
      compile_command ":0.0" ((((⟨0, 0, 101, 50⟩ : Geometry).x : Int):ℚ))
        (((0:Int):ℚ)) (((101:Int):ℚ)) (((50:Int):ℚ)) "/dev/video0"
        (some ((evenRoundUp 101 : Int) : ℚ))
        (some ((evenRoundUp 50 : Int) : ℚ)) 30 true true "error" ∧
    2 ∣ evenRoundUp 101 ∧ 101 ≤ evenRoundUp 101 ∧ evenRoundUp 101 ≤ 102 := by
  have T := c8_stream_even_output_dims ":0.0" "/dev/video0" ⟨0, 0, 101, 50⟩
    30 (by decide) (by decide)
  exact ⟨T.1, T.2.1.1, T.2.1.2.1, T.2.1.2.2 102 (by decide) (by decide)⟩

theorem ratTrunc_le_int {q : ℚ} {m : Int} (h0 : 0 ≤ q) (h : q ≤ ((m:ℚ))) :
    ratTrunc q ≤ m := by
  rw [ratTrunc_of_nonneg h0]
  have h2 := Int.floor_le_floor h
  rwa [Int.floor_intCast] at h2

/-- The first bound step of `screenshot` (`ffmpeg.py`):
`if max_width and output_width > max_width`, replacing the output size
by `(max_width, max_width / source_aspect)`. -/
def shotStep1 (g : Geometry) (max_width : Option Int) : ℚ × ℚ :=
  match max_width with
  | none => (((g.width:ℚ)), ((g.height:ℚ)))
  | some m =>
    if m ≠ 0 ∧ m < g.width then
      (((m:ℚ)), ((m:ℚ)) / (((g.width:ℚ)) / ((g.height:ℚ))))
    else (((g.width:ℚ)), ((g.height:ℚ)))

/-- The output size computed by `screenshot` (`ffmpeg.py`) before it is
handed to `compile_command`: the first bound step followed by
`if max_height and output_height > max_height`, replacing the output
size by `(max_height * source_aspect, max_height)`. -/
def screenshotDims (g : Geometry) (max_width max_height : Option Int) :
    ℚ × ℚ :=
  match max_height with
  | none => shotStep1 g max_width
  | some m =>
    if m ≠ 0 ∧ ((m:ℚ)) < (shotStep1 g max_width).2 then
      (((m:ℚ)) * (((g.width:ℚ)) / ((g.height:ℚ))), ((m:ℚ)))
    else shotStep1 g max_width

/-- `screenshot` of `ffmpeg.py` (the compiled command; process launch is
not modelled): bound-constrained output size, `fps=0`,
`maintain_aspect=False`, default `scale=True` and `loglevel='error'`. -/
def screenshot (screen_id : String) (g : Geometry) (filename : String)
    (max_width max_height : Option Int) : List String :=
  compile_command screen_id ((g.x:ℚ)) ((g.y:ℚ)) ((g.width:ℚ)) ((g.height:ℚ))
    filename (some (screenshotDims g max_width max_height).1)
    (some (screenshotDims g max_width max_height).2) 0 true false "error"

theorem shotStep1_pos (g : Geometry) (mw : Option Int)
    (hw : 0 < g.width) (hh : 0 < g.height)
    (hmw : ∀ m, mw = some m → 0 < m) :
    0 < (shotStep1 g mw).1 ∧ 0 < (shotStep1 g mw).2 := by
  have hW : (0:ℚ) < ((g.width:ℚ)) := by exact_mod_cast hw
  have hH : (0:ℚ) < ((g.height:ℚ)) := by exact_mod_cast hh
  cases mw with
  | none => exact ⟨hW, hH⟩
  | some a =>
    simp only [shotStep1]
    by_cases hc : a ≠ 0 ∧ a < g.width
    · rw [if_pos hc]
      have haQ : (0:ℚ) < ((a:ℚ)) := by exact_mod_cast hmw a rfl
      exact ⟨haQ, div_pos haQ (div_pos hW hH)⟩
    · rw [if_neg hc]
      exact ⟨hW, hH⟩

theorem shotStep1_aspect (g : Geometry) (mw : Option Int)
    (hw : 0 < g.width) (hh : 0 < g.height) :
    (shotStep1 g mw).1 * ((g.height:ℚ)) =
      (shotStep1 g mw).2 * ((g.width:ℚ)) := by
  have hW : ((g.width:ℚ)) ≠ 0 := by positivity
  have hH : ((g.height:ℚ)) ≠ 0 := by positivity
  cases mw with
  | none => exact mul_comm _ _
  | some a =>
    simp only [shotStep1]
    by_cases hc : a ≠ 0 ∧ a < g.width
    · rw [if_pos hc]
      show ((a:ℚ)) * ((g.height:ℚ)) =
        ((a:ℚ)) / (((g.width:ℚ)) / ((g.height:ℚ))) * ((g.width:ℚ))
      field_simp
    · rw [if_neg hc]
      exact mul_comm _ _

/-- C9: for a positive geometry and any combination of provided
(positive) max bounds, `screenshot` invokes the compiler with `fps = 0`,
`scale = true`, `maintain_aspect = false`; the pre-scaled output size
keeps the source aspect ratio exactly (cross-multiplication form); the
integer-coerced output dimensions respect every provided bound; and a
geometry within both bounds is passed through unchanged. -/
theorem c9_screenshot_prescale (screen fn : String) (g : Geometry)
    (mw mh : Option Int) (hw : 0 < g.width) (hh : 0 < g.height)
    (hmw : ∀ m, mw = some m → 0 < m) (hmh : ∀ m, mh = some m → 0 < m) :
    screenshot screen g fn mw mh =
      compile_command screen ((g.x:ℚ)) ((g.y:ℚ)) ((g.width:ℚ))
        ((g.height:ℚ)) fn (some (screenshotDims g mw mh).1)
        (some (screenshotDims g mw mh).2) 0 true false "error" ∧
    (screenshotDims g mw mh).1 * ((g.height:ℚ)) =
      (screenshotDims g mw mh).2 * ((g.width:ℚ)) ∧
    (∀ m, mw = some m → ratTrunc (screenshotDims g mw mh).1 ≤ m) ∧
    (∀ m, mh = some m → ratTrunc (screenshotDims g mw mh).2 ≤ m) ∧
    ((∀ m, mw = some m → g.width ≤ m) → (∀ m, mh = some m → g.height ≤ m) →
      screenshotDims g mw mh = (((g.width:ℚ)), ((g.height:ℚ)))) := by
  have hW : (0:ℚ) < ((g.width:ℚ)) := by exact_mod_cast hw
  have hH : (0:ℚ) < ((g.height:ℚ)) := by exact_mod_cast hh
  have hA : (0:ℚ) < ((g.width:ℚ)) / ((g.height:ℚ)) := div_pos hW hH
  have hpos := shotStep1_pos g mw hw hh hmw
  have hasp := shotStep1_aspect g mw hw hh
  have htwist : (shotStep1 g mw).2 * (((g.width:ℚ)) / ((g.height:ℚ))) =
      (shotStep1 g mw).1 := by
    have hH0 : ((g.height:ℚ)) ≠ 0 := by positivity
    field_simp
    linarith [hasp]
  refine ⟨rfl, ?_, ?_, ?_, ?_⟩
  · cases mh with
    | none => exact hasp
    | some b =>
      simp only [screenshotDims]
      by_cases hc : b ≠ 0 ∧ ((b:ℚ)) < (shotStep1 g mw).2
      · rw [if_pos hc]
        show ((b:ℚ)) * (((g.width:ℚ)) / ((g.height:ℚ))) * ((g.height:ℚ)) =
          ((b:ℚ)) * ((g.width:ℚ))
        field_simp
      · rw [if_neg hc]
        exact hasp
  · intro a hae
    have haQ : (0:ℚ) < ((a:ℚ)) := by exact_mod_cast hmw a hae
    have hs1le : (shotStep1 g mw).1 ≤ ((a:ℚ)) := by
      subst hae
      have haI : 0 < a := hmw a rfl
      simp only [shotStep1]
      by_cases hc : a ≠ 0 ∧ a < g.width
      · rw [if_pos hc]
      · rw [if_neg hc]
        push_neg at hc
        have h1 : g.width ≤ a := by
          have := hc (by omega)
          omega
        show ((g.width:ℚ)) ≤ ((a:ℚ))
        exact_mod_cast h1
    cases mh with
    | none => exact ratTrunc_le_int (le_of_lt hpos.1) hs1le
    | some b =>
      simp only [screenshotDims]
      by_cases hc : b ≠ 0 ∧ ((b:ℚ)) < (shotStep1 g mw).2
      · rw [if_pos hc]
        have hbQ : (0:ℚ) < ((b:ℚ)) := by exact_mod_cast hmh b rfl
        have hlt : ((b:ℚ)) * (((g.width:ℚ)) / ((g.height:ℚ))) <
            (shotStep1 g mw).1 := by
          have h1 := mul_lt_mul_of_pos_right hc.2 hA
          rwa [htwist] at h1
        exact ratTrunc_le_int (le_of_lt (mul_pos hbQ hA))
          (le_trans (le_of_lt hlt) hs1le)
      · rw [if_neg hc]
        exact ratTrunc_le_int (le_of_lt hpos.1) hs1le
  · intro b hbe
    subst hbe
    simp only [screenshotDims]
    by_cases hc : b ≠ 0 ∧ ((b:ℚ)) < (shotStep1 g mw).2
    · rw [if_pos hc]
      simp
    · rw [if_neg hc]
      have hb : 0 < b := hmh b rfl
      push_neg at hc
      have hle : (shotStep1 g mw).2 ≤ ((b:ℚ)) := hc (by omega)
      exact ratTrunc_le_int (le_of_lt hpos.2) hle
  · intro hbw hbh
    have hs1 : shotStep1 g mw = (((g.width:ℚ)), ((g.height:ℚ))) := by
      cases mw with
      | none => rfl
      | some a =>
        have ha := hbw a rfl
        simp only [shotStep1]
        rw [if_neg]
        push_neg
        intro _
        omega
    cases mh with
    | none => exact hs1
    | some b =>
      have hb := hbh b rfl
      simp only [screenshotDims]
      rw [if_neg, hs1]
      push_neg
      intro _
      rw [hs1]
      show ((g.height:ℚ)) ≤ ((b:ℚ))
      exact_mod_cast hb

/-- C9, witness: a 100×50 geometry with bounds 60×60 pre-scales to
60×30 (aspect 2:1 kept), both integer-coerced dimensions within the
bounds, still-image flags to the compiler. -/
theorem c9_screenshot_prescale_witness :
    screenshot ":0.0" ⟨0, 0, 100, 50⟩ "shot.png" (some 60) (some 60) =
      compile_command ":0.0" (((0:Int):ℚ)) (((0:Int):ℚ)) (((100:Int):ℚ))
        (((50:Int):ℚ)) "shot.png"
        (some (screenshotDims ⟨0, 0, 100, 50⟩ (some 60) (some 60)).1)
        (some (screenshotDims ⟨0, 0, 100, 50⟩ (some 60) (some 60)).2)
        0 true false "error" ∧
    ratTrunc (screenshotDims ⟨0, 0, 100, 50⟩ (some 60) (some 60)).1 ≤ 60 ∧
    ratTrunc (screenshotDims ⟨0, 0, 100, 50⟩ (some 60) (some 60)).2 ≤ 60 := by
  have T := c9_screenshot_prescale ":0.0" "shot.png" ⟨0, 0, 100, 50⟩
    (some 60) (some 60) (by decide) (by decide)
    (fun m hm => by cases hm; decide) (fun m hm => by cases hm; decide)
  exact ⟨T.1, T.2.2.1 60 rfl, T.2.2.2.1 60 rfl⟩

/-- Python `str.split(' ')` on the character list: split at every single
space, keeping empty pieces (so `''` yields `['']` and consecutive
spaces yield empty words). -/
def splitChars : List Char → List (List Char)
  | [] => [[]]
  | c :: cs =>
    if c = ' ' then [] :: splitChars cs
    else
      match splitChars cs with
      | [] => [[c]]
      | w :: ws => (c :: w) :: ws

/-- Python `line.split(' ')` as used by `get_version` (`ffmpeg.py`). -/
def splitSpace (s : String) : List String :=
  (splitChars s.data).map fun cs => ⟨cs⟩

example : splitSpace "ffmpeg version 4.4.2 more" =
    ["ffmpeg", "version", "4.4.2", "more"] := by decide
example : splitSpace "" = [""] := by decide
example : splitSpace "a  b" = ["a", "", "b"] := by decide

/-- `get_version` of `ffmpeg.py`, over its two observable inputs: the
exit code of `ffmpeg -version` and the first output line.  A non-zero
exit returns `none` (ffmpeg unavailable); otherwise `words[1]` and, when
it is `'version'`, `words[2]` are read — a Python `IndexError` on those
subscripts is modelled as `Except.error ()`. -/
def get_version (exitcode : Nat) (first_line : String) :
    Except Unit (Option String) :=
  if exitcode ≠ 0 then Except.ok none
  else
    match (splitSpace first_line)[1]? with
    | none => Except.error ()
    | some w =>
      if w = "version" then
        match (splitSpace first_line)[2]? with
        | none => Except.error ()
        | some v => Except.ok (some v)
      else Except.ok (some "<Unknown>")

/-- C2, counterexample.  The claim asserts that every first-line shape
other than `<tool> version <v> ...` — "including lines with fewer than
three space-delimited words" — yields the `'<Unknown>'` sentinel rather
than an error; but a one-word first line (no space at all) makes
`words[1]` raise `IndexError` in the source, modelled here as
`Except.error ()`. -/
theorem c2_counterexample :
    get_version 0 "ffmpeg" = Except.error () ∧
    (Except.error () : Except Unit (Option String)) ≠
      Except.ok (some "<Unknown>") := by
  constructor
  · rfl
  · simp

/-- C2, amended: `get_version` returns `none` on non-zero exit; returns
the third word when the second word is `'version'`; returns
`'<Unknown>'` when there are at least two words and the second is not
`'version'`; but errors (Python `IndexError`) on a first line with
fewer than two words, or with exactly two words the second being
`'version'`. -/
theorem c2_get_version_parse (exitcode : Nat) (line : String) :
    (exitcode ≠ 0 → get_version exitcode line = Except.ok none) ∧
    (exitcode = 0 → ∀ t v rest,
      splitSpace line = t :: "version" :: v :: rest →
      get_version exitcode line = Except.ok (some v)) ∧
    (exitcode = 0 → ∀ t w rest, splitSpace line = t :: w :: rest →
      w ≠ "version" →
      get_version exitcode line = Except.ok (some "<Unknown>")) ∧
    (exitcode = 0 → (splitSpace line).length ≤ 1 →
      get_version exitcode line = Except.error ()) ∧
    (exitcode = 0 → ∀ t, splitSpace line = [t, "version"] →
      get_version exitcode line = Except.error ()) := by
  refine ⟨?_, ?_, ?_, ?_, ?_⟩
  · intro h
    rw [get_version, if_pos h]
  · intro h t v rest hsp
    subst h
    simp [get_version, hsp]
  · intro h t w rest hsp hwv
    subst h
    simp [get_version, hsp, hwv]
  · intro h hlen
    subst h
    have h1 : (splitSpace line)[1]? = none := by
      rw [List.getElem?_eq_none_iff]
      omega
    simp [get_version, h1]
  · intro h t hsp
    subst h
    simp [get_version, hsp]

/-- C2, witness: the three defined behaviours at concrete inputs — a
non-zero exit, the spec's well-formed example line, and the spec's
two-word garbage line. -/
theorem c2_get_version_parse_witness :
    get_version 1 "whatever" = Except.ok none ∧
    get_version 0 "ffmpeg version 4.4.2-test more" =
      Except.ok (some "4.4.2-test") ∧
    get_version 0 "ffmpeg weird-garbage" = Except.ok (some "<Unknown>") :=
  ⟨(c2_get_version_parse 1 "whatever").1 (by decide),
   (c2_get_version_parse 0 "ffmpeg version 4.4.2-test more").2.1 rfl
     "ffmpeg" "4.4.2-test" ["more"] (by decide),
   (c2_get_version_parse 0 "ffmpeg weird-garbage").2.2.1 rfl
     "ffmpeg" "weird-garbage" [] (by decide) (by decide)⟩

/-- A Gtk widget as seen by `find_child_by_id` (`gtk/utils.py`): it has
a name (`get_name()`), and it may or may not expose a child-listing
capability (`hasattr(child, 'get_children')`) — `none` models a widget
without `get_children`, which the traversal treats as a leaf. -/
inductive Widget where
  | mk : String → Option (List Widget) → Widget

/-- `child.get_name()`. -/
def Widget.getName : Widget → String
  | .mk n _ => n

/-- `child.get_children()` when the capability is present, `[]` for a
capability-less leaf (such a node contributes nothing to `next_level`). -/
def Widget.childList : Widget → List Widget
  | .mk _ none => []
  | .mk _ (some cs) => cs

mutual

def sizeW : Widget → Nat
  | .mk _ none => 1
  | .mk _ (some cs) => 1 + sizeL cs

def sizeL : List Widget → Nat
  | [] => 0
  | w :: ws => sizeW w + sizeL ws

end

theorem sizeW_pos (w : Widget) : 1 ≤ sizeW w := by
  cases w with
  | mk n c =>
    cases c with
    | none => simp [sizeW]
    | some cs => simp [sizeW]

theorem sizeL_childList_lt (w : Widget) : sizeL w.childList < sizeW w := by
  cases w with
  | mk n c =>
    cases c with
    | none => simp [Widget.childList, sizeW, sizeL]
    | some cs => simp [Widget.childList, sizeW]

theorem sizeL_append (l₁ l₂ : List Widget) :
    sizeL (l₁ ++ l₂) = sizeL l₁ + sizeL l₂ := by
  induction l₁ with
  | nil => simp [sizeL]
  | cons w ws ih => simp [sizeL, ih]; omega

/-- One level down: `next_level.extend(child.get_children())` collected
over a whole level, in left-to-right order. -/
def levelChildren : List Widget → List Widget
  | [] => []
  | w :: ws => w.childList ++ levelChildren ws

theorem sizeL_levelChildren_add_length :
    ∀ l : List Widget, sizeL (levelChildren l) + l.length ≤ sizeL l := by
  intro l
  induction l with
  | nil => simp [levelChildren, sizeL]
  | cons w ws ih =>
    have h1 := sizeL_childList_lt w
    simp only [levelChildren, sizeL, sizeL_append, List.length_cons]
    omega

theorem sizeL_levelChildren_lt {l : List Widget} (h : l ≠ []) :
    sizeL (levelChildren l) < sizeL l := by
  have h1 := sizeL_levelChildren_add_length l
  have h2 : 1 ≤ l.length := by
    cases l with
    | nil => exact absurd rfl h
    | cons w ws => simp
  omega

/-- The `while next_level` loop of `find_child_by_id` (`gtk/utils.py`):
scan the current level for the first name match (the loop returns the
matching child as soon as it reaches it), otherwise descend to the
concatenated children of the whole level.  The loop variant is the total
size of the current level. -/
def bfs (name : String) : (level : List Widget) → Option Widget
  | [] => none
  | w :: ws =>
    match (w :: ws).find? (fun c => c.getName == name) with
    | some c => some c
    | none => bfs name (levelChildren (w :: ws))
termination_by level => sizeL level
decreasing_by
  exact sizeL_levelChildren_lt (by simp)

/-- `find_child_by_id` of `gtk/utils.py`: breadth-first search from
`root`, `None` when the hierarchy is exhausted. -/
def find_child_by_id (root : Widget) (name : String) : Option Widget :=
  bfs name [root]

/-- The flattened traversal sequence of the level-by-level loop. -/
def flattenLevels : (level : List Widget) → List Widget
  | [] => []
  | w :: ws => (w :: ws) ++ flattenLevels (levelChildren (w :: ws))
termination_by level => sizeL level
decreasing_by
  exact sizeL_levelChildren_lt (by simp)

def concatLists : List (List Widget) → List Widget
  | [] => []
  | l :: ls => l ++ concatLists ls

/-- The breadth-first visiting order as the specification words it: all
nodes at depth `d` (in left-to-right child order) listed before any node
at depth `d + 1`, starting from the root at depth `0`.  `sizeW root`
levels always suffice to exhaust the tree. -/
def bfsTraversal (root : Widget) : List Widget :=
  concatLists ((List.range (sizeW root)).map
    (fun d => levelChildren^[d] [root]))

theorem iterate_levelChildren_nil (d : Nat) :
    levelChildren^[d] ([] : List Widget) = [] :=
  Function.iterate_fixed rfl d

theorem iterate_levelChildren_eq_nil :
    ∀ (n : Nat) (l : List Widget), sizeL l ≤ n →
      levelChildren^[n] l = [] := by
  intro n
  induction n with
  | zero =>
    intro l hl
    cases l with
    | nil => rfl
    | cons w ws =>
      have := sizeW_pos w
      simp [sizeL] at hl
      omega
  | succ n ih =>
    intro l hl
    by_cases hl0 : l = []
    · subst hl0
      exact iterate_levelChildren_nil _
    · rw [Function.iterate_succ_apply]
      apply ih
      have := sizeL_levelChildren_lt hl0
      omega

theorem concatLists_of_all_nil :
    ∀ ls : List (List Widget), (∀ l ∈ ls, l = []) → concatLists ls = [] := by
  intro ls
  induction ls with
  | nil => intro _; rfl
  | cons l ls ih =>
    intro h
    rw [concatLists, h l (by simp), ih (fun l' hl' => h l' (by simp [hl']))]
    rfl

theorem bfs_eq_find_flattenLevels (name : String) :
    ∀ (n : Nat) (level : List Widget), sizeL level ≤ n →
      bfs name level =
        (flattenLevels level).find? (fun c => c.getName == name) := by
  intro n
  induction n with
  | zero =>
    intro level h
    cases level with
    | nil => simp [bfs, flattenLevels]
    | cons w ws =>
      have := sizeW_pos w
      simp [sizeL] at h
      omega
  | succ n ih =>
    intro level h
    cases level with
    | nil => simp [bfs, flattenLevels]
    | cons w ws =>
      rcases hfind : (w :: ws).find? (fun c => c.getName == name) with _ | c
      · rw [bfs, hfind, flattenLevels, List.find?_append, hfind,
          Option.none_or]
        apply ih
        have hlt := sizeL_levelChildren_lt
          (show (w :: ws) ≠ [] by simp)
        omega
      · rw [bfs, hfind, flattenLevels, List.find?_append, hfind]
        rfl

theorem flattenLevels_eq_concat :
    ∀ (n : Nat) (level : List Widget), levelChildren^[n] level = [] →
      flattenLevels level =
        concatLists ((List.range n).map
          (fun d => levelChildren^[d] level)) := by
  intro n
  induction n with
  | zero =>
    intro level h
    rw [Function.iterate_zero_apply] at h
    subst h
    simp [flattenLevels, concatLists]
  | succ n ih =>
    intro level h
    cases level with
    | nil =>
      rw [flattenLevels]
      refine (concatLists_of_all_nil _ ?_).symm
      intro l hl
      rcases List.mem_map.mp hl with ⟨d, _, rfl⟩
      exact iterate_levelChildren_nil d
    | cons w ws =>
      rw [flattenLevels, List.range_succ_eq_map, List.map_cons,
        List.map_map, concatLists]
      have hcomp :
          ((fun d => levelChildren^[d] (w :: ws)) ∘ Nat.succ) =
            fun d => levelChildren^[d] (levelChildren (w :: ws)) := by
        funext d
        simp [Function.comp, Function.iterate_succ_apply]
      rw [hcomp, ← ih (levelChildren (w :: ws))
        (by rwa [← Function.iterate_succ_apply])]
      simp [Function.iterate_zero_apply]

/-- C7: `find_child_by_id` returns exactly the first node whose name
matches in the breadth-first visiting order (all nodes at depth `d`, in
left-to-right child order, before any node at depth `d + 1`, starting
with the root), and `none` when the whole tree is exhausted without a
match.  Capability-less nodes contribute no children (`Widget.childList`
is `[]` for them), i.e. they are treated as leaves. -/
theorem c7_find_child_by_id_bfs (root : Widget) (name : String) :
    find_child_by_id root name =
      (bfsTraversal root).find? (fun c => c.getName == name) := by
  have hsz : sizeL [root] ≤ sizeW root := by
    simp [sizeL]
  have hiter : levelChildren^[sizeW root] [root] = [] :=
    iterate_levelChildren_eq_nil _ _ hsz
  rw [find_child_by_id, bfs_eq_find_flattenLevels name (sizeW root) [root] hsz,
    flattenLevels_eq_concat (sizeW root) [root] hiter, bfsTraversal]
